import Mathlib

/-!
Verification development for the Rainbow wavetable FIR convolution effect
(rainbow.cpp).  The C++ source is shallowly embedded: float arithmetic is
modelled exactly over the rationals, the int16 wavetable buffer is a total
function from (signed) buffer indices to integers, and the stateful audio
path is modelled by explicit state passing.  The transcendental functions
tanh and pow, which the source calls as black boxes, are passed in as
function parameters.
-/

namespace Rainbow

/-- FIR kernel sizes, from the kKernelSizes table in the source. -/
def kKernelSizes : List ℕ := [64, 128, 256, 512]

/-- Maximum kernel size (kMaxKernelSize in the source). -/
def kMaxKernelSize : ℕ := 512

/-- Maximum number of channels (kMaxChannels in the source). -/
def kMaxChannels : ℕ := 12

/-- The per-sample crossfade increment, the literal 1.0f/2400.0f in step
(about 50 ms at 48 kHz). -/
def kCrossfadeRate : ℚ := 1 / 2400

/-- Soft saturation, from softSaturate in the source.  The tanh function is a
parameter since the source calls the C library tanh as a black box. -/
def softSaturate (tanh : ℚ → ℚ) (x amount : ℚ) : ℚ :=
  if amount < 1 / 1000 then x
  else tanh (x * (1 + amount * 4)) / tanh (1 + amount * 4)

/-- Clamp to the unit interval, the expression
std.max(0, std.min(1, indexParam)) in buildKernelAtIndex. -/
def clamp01 (x : ℚ) : ℚ := max 0 (min 1 x)

/-- The clamped fractional wave offset computed by buildKernelAtIndex:
offset = indexParam * (numWaves - 1), then clamped into
[0, numWaves - 1 - 0.0001]. -/
def kernOffset (numWaves : ℕ) (p : ℚ) : ℚ :=
  max 0 (min (clamp01 p * ((numWaves : ℚ) - 1)) (((numWaves : ℚ) - 1) - 1 / 10000))

/-- wave0 = (int)offset in the source; the offset is nonnegative so the C
truncation is the floor. -/
def wave0 (numWaves : ℕ) (p : ℚ) : ℤ := ⌊kernOffset numWaves p⌋

/-- wave1 = min(wave0 + 1, numWaves - 1) in the source. -/
def wave1 (numWaves : ℕ) (p : ℚ) : ℤ :=
  min (wave0 numWaves p + 1) ((numWaves : ℤ) - 1)

/-- frac = offset - wave0 in the source. -/
def kernFrac (numWaves : ℕ) (p : ℚ) : ℚ :=
  kernOffset numWaves p - (wave0 numWaves p : ℚ)

/-- Start of the length-kernelSize mip snapshot for wave w:
wavetableBuffer + kernelSize * (numWaves + w) in the source. -/
def mipBase (numWaves ks : ℕ) (w : ℤ) : ℤ := (ks : ℤ) * ((numWaves : ℤ) + w)

/-- An int16 buffer sample converted to float: mip[i] / 32768.0f. -/
def mipSample (table : ℤ → ℤ) (numWaves ks : ℕ) (w : ℤ) (i : ℕ) : ℚ :=
  (table (mipBase numWaves ks w + i) : ℚ) / 32768

/-- The interpolated, not yet normalized kernel taps written by the first
loop of buildKernelAtIndex: dest[i] = v0 + frac * (v1 - v0). -/
def rawKernel (table : ℤ → ℤ) (numWaves ks : ℕ) (p : ℚ) (i : ℕ) : ℚ :=
  let v0 := mipSample table numWaves ks (wave0 numWaves p) i
  let v1 := mipSample table numWaves ks (wave1 numWaves p) i
  v0 + kernFrac numWaves p * (v1 - v0)

/-- The accumulated sum of absolute tap values in buildKernelAtIndex. -/
def kernL1 (table : ℤ → ℤ) (numWaves ks : ℕ) (p : ℚ) : ℚ :=
  ∑ i in Finset.range ks, |rawKernel table numWaves ks p i|

/-- buildKernelAtIndex from the source: interpolate the taps, then if the
absolute sum exceeds 0.001 scale every tap by its reciprocal. -/
def buildKernelAtIndex (table : ℤ → ℤ) (numWaves ks : ℕ) (p : ℚ) : ℕ → ℚ :=
  if 1 / 1000 < kernL1 table numWaves ks p then
    fun i => rawKernel table numWaves ks p i * (1 / kernL1 table numWaves ks p)
  else
    fun i => rawKernel table numWaves ks p i

/-- buildAllKernels from the source.  It reads the raw parameter values
v[kParamIndex] and v[kParamSpread] (integers 0..1000) and scales them by
0.001; with negligible spread or one channel a single kernel is built and
shared, otherwise each channel gets a symmetric offset around the base. -/
def buildAllKernels (table : ℤ → ℤ) (numWaves ks numChannels : ℕ)
    (vIndex vSpread : ℤ) : ℕ → ℕ → ℚ :=
  let indexParam : ℚ := (vIndex : ℚ) * (1 / 1000)
  let spread : ℚ := (vSpread : ℚ) * (1 / 1000)
  if spread < 1 / 1000 ∨ numChannels = 1 then
    fun _ch => buildKernelAtIndex table numWaves ks indexParam
  else
    fun ch => buildKernelAtIndex table numWaves ks
      (indexParam + spread * ((ch : ℚ) / ((numChannels : ℚ) - 1) - 1 / 2))

/-- Per-channel audio state (ChannelState in the source): a delay line of
2 * kMaxKernelSize floats and a write cursor.  The delay line is modelled as
a total function on natural indices; the safety claim shows every index the
code touches is below 2 * kMaxKernelSize. -/
structure ChanSp where
  delay : ℕ → ℚ
  writePos : ℕ

/-- The full engine state: the _rainbow_DTC fields together with the
_rainbowAlgorithm fields the core logic reads (request flags, the raw
Index/Spread parameter values and the loaded wavetable buffer).  The
host-facing plumbing (parameter descriptor layout, drawing, the card-mount
logic) is not part of the embedded core. -/
structure State where
  channels : ℕ → ChanSp
  kernels : ℕ → ℕ → ℚ
  newKernels : ℕ → ℕ → ℚ
  crossfadeMix : ℚ
  crossfading : Bool
  depth : ℚ
  gain : ℚ
  saturation : ℚ
  kernelSize : ℕ
  kernelMask : ℕ
  numChannels : ℕ
  wavetableLoaded : Bool
  awaitingCallback : Bool
  cardMounted : Bool
  error : Bool
  usingMipMaps : Bool
  numWaves : ℕ
  table : ℤ → ℤ
  vIndex : ℤ
  vSpread : ℤ

/-- Shorthand for the buildAllKernels call sites, which all pass the
current table, wave count, kernel size, channel count and raw Index/Spread
parameter values of the state. -/
def buildAllOf (s : State) : ℕ → ℕ → ℚ :=
  buildAllKernels s.table s.numWaves s.kernelSize s.numChannels s.vIndex s.vSpread

/-- updateKernel from the source: rebuild the active kernel set, but only
when a wavetable is loaded without error and it has usable mipmap data. -/
def updateKernel (s : State) : State :=
  if ¬s.wavetableLoaded ∨ s.error then s
  else if ¬s.usingMipMaps ∨ s.numWaves = 0 then s
  else { s with kernels := buildAllOf s }

/-- updateKernelWithCrossfade from the source: build the pending kernel set
and start a crossfade, but only for an error-free load with usable mipmap
data. -/
def updateKernelWithCrossfade (s : State) : State :=
  if s.error then s
  else if ¬s.usingMipMaps ∨ s.numWaves = 0 then s
  else { s with newKernels := buildAllOf s, crossfadeMix := 0, crossfading := true }

/-- wavetableCallback from the source: clear awaitingCallback; on an
error-free load, either crossfade to the new table (if one was already
loaded) or mark loaded and build the active set directly.  Note the direct
first-load build is not guarded by usingMipMaps or numWaves. -/
def wavetableCallback (s : State) : State :=
  let s1 := { s with awaitingCallback := false }
  if ¬s1.error then
    if s1.wavetableLoaded then updateKernelWithCrossfade s1
    else { s1 with wavetableLoaded := true, kernels := buildAllOf s1 }
  else s1

/-- The shared parameter identifiers of the source. -/
inductive Param where
  | wavetable
  | index
  | spread
  | depth
  | gain
  | saturation
  | resolution
deriving DecidableEq

/-- The kernel size selected by the Resolution parameter:
kKernelSizes[clamp(v, 0, kNumKernelSizes - 1)]. -/
def kernelSizeOf (v : ℤ) : ℕ := kKernelSizes.getD (max 0 (min v 3)).toNat 0

/-- parameterChanged from the source.  The host stores the new raw value v
into the parameter array before the call, so the Index/Spread cases first
record v and then run updateKernel.  pow10 stands for the C library call
powf(10, e); readOk stands for the result of NT_readWavetable. -/
def parameterChanged (pow10 : ℚ → ℚ) (readOk : Bool) (p : Param) (v : ℤ)
    (s : State) : State :=
  match p with
  | .wavetable =>
      if ¬s.awaitingCallback ∧ s.cardMounted ∧ readOk then
        { s with awaitingCallback := true }
      else s
  | .index => updateKernel { s with vIndex := v }
  | .spread => updateKernel { s with vSpread := v }
  | .depth => { s with depth := (v : ℚ) / 100 }
  | .gain => { s with gain := pow10 (((v : ℚ) / 10) / 20) }
  | .saturation => { s with saturation := (v : ℚ) / 100 }
  | .resolution =>
      updateKernel { s with kernelSize := kernelSizeOf v,
                            kernelMask := kernelSizeOf v - 1 }

/-- The block-constant configuration the step function reads from the DTC
before the channel loop. -/
structure FrameCfg where
  doConvolve : Bool
  crossfading : Bool
  isDriver : Bool
  kernelSize : ℕ
  kernelMask : ℕ
  depth : ℚ
  gain : ℚ
  saturation : ℚ

/-- The dual delay-line write of step: delay[wp] = dry and
delay[wp + kernelSize] = dry. -/
def writeDelay (delay : ℕ → ℚ) (wp ks : ℕ) (dry : ℚ) : ℕ → ℚ :=
  fun j => if j = wp ∨ j = wp + ks then dry else delay j

/-- The convolution dot product of step.  The unrolled four-accumulator
loop reads x[-k] for x = delay + wp + kernelSize against kernel tap h[k];
in exact arithmetic the four partial sums regroup to this single sum. -/
def convolveAt (delay : ℕ → ℚ) (wp ks : ℕ) (h : ℕ → ℚ) : ℚ :=
  ∑ k in Finset.range ks, delay (wp + ks - k) * h k

/-- The wet sample of step: pass-through when nothing is loaded, the active
convolution when idle, and the blend
wetOld + (wetNew - wetOld) * localMix while crossfading. -/
def wetValue (cfg : FrameCfg) (kernel newKernel : ℕ → ℚ) (localMix : ℚ)
    (delay : ℕ → ℚ) (wp : ℕ) (dry : ℚ) : ℚ :=
  if cfg.doConvolve then
    let wetOld := convolveAt delay wp cfg.kernelSize kernel
    if cfg.crossfading then
      let wetNew := convolveAt delay wp cfg.kernelSize newKernel
      wetOld + (wetNew - wetOld) * localMix
    else wetOld
  else dry

/-- The output conditioning of step: depth mix, optional saturation
(guarded by saturation > 0.001), then gain. -/
def postMix (tanh : ℚ → ℚ) (cfg : FrameCfg) (dry wet : ℚ) : ℚ :=
  let mixed := dry * (1 - cfg.depth) + wet * cfg.depth
  let mixed := if 1 / 1000 < cfg.saturation then softSaturate tanh mixed cfg.saturation
               else mixed
  mixed * cfg.gain

/-- The per-channel running state inside the step frame loop: the delay
line, the write cursor wp and the localMix copy of the crossfade mix. -/
structure ChanRun where
  delay : ℕ → ℚ
  wp : ℕ
  localMix : ℚ

/-- One iteration of the step frame loop for one channel: dual delay write,
wet computation, the driver-only localMix advance (inside the convolve and
crossfade branches, as in the source), the masked cursor advance, and the
output conditioning. -/
def stepSample (tanh : ℚ → ℚ) (cfg : FrameCfg) (kernel newKernel : ℕ → ℚ)
    (dry : ℚ) (c : ChanRun) : ChanRun × ℚ :=
  let d1 := writeDelay c.delay c.wp cfg.kernelSize dry
  let wet := wetValue cfg kernel newKernel c.localMix d1 c.wp dry
  let mix1 := if cfg.doConvolve && cfg.crossfading && cfg.isDriver
              then c.localMix + kCrossfadeRate else c.localMix
  let wp1 := (c.wp + 1) &&& cfg.kernelMask
  (⟨d1, wp1, mix1⟩, postMix tanh cfg dry wet)

/-- The step frame loop for one channel over a whole block of dry input
samples, returning the final channel state and the list of conditioned
output samples. -/
def stepFrames (tanh : ℚ → ℚ) (cfg : FrameCfg) (kernel newKernel : ℕ → ℚ) :
    List ℚ → ChanRun → ChanRun × List ℚ
  | [], c => (c, [])
  | dry :: rest, c =>
      let r := stepSample tanh cfg kernel newKernel dry c
      let r2 := stepFrames tanh cfg kernel newKernel rest r.1
      (r2.1, r.2 :: r2.2)

/-- The configuration step derives from the state for one channel: channel
0 is the driver. -/
def blockCfg (s : State) (isDriver : Bool) : FrameCfg :=
  { doConvolve := s.wavetableLoaded
    crossfading := s.crossfading
    isDriver := isDriver
    kernelSize := s.kernelSize
    kernelMask := s.kernelMask
    depth := s.depth
    gain := s.gain
    saturation := s.saturation }

/-- One channel of the step channel loop: run the frame loop starting from
the channel state in the DTC, with the given initial localMix. -/
def stepChannel (tanh : ℚ → ℚ) (s : State) (isDriver : Bool) (startMix : ℚ)
    (ch : ℕ) (input : List ℚ) : ChanRun × List ℚ :=
  stepFrames tanh (blockCfg s isDriver) (s.kernels ch) (s.newKernels ch) input
    ⟨(s.channels ch).delay, (s.channels ch).writePos, startMix⟩

/-- Channel 0 of the step channel loop, which runs first, as the driver,
starting from the stored crossfade mix. -/
def driverRun (tanh : ℚ → ℚ) (inputs : ℕ → List ℚ) (s : State) :
    ChanRun × List ℚ :=
  stepChannel tanh s true s.crossfadeMix 0 (inputs 0)

/-- The value of the local crossfadeMix variable of step after channel 0
has run: while crossfading it is channel 0's advanced localMix, otherwise
the stored mix.  Every channel after 0 starts its frame loop from this
value. -/
def mixAfterBlock (tanh : ℚ → ℚ) (inputs : ℕ → List ℚ) (s : State) : ℚ :=
  if s.crossfading then (driverRun tanh inputs s).1.localMix else s.crossfadeMix

/-- The run of one channel of the step channel loop: the driver for
channel 0, and for every later channel the non-driver frame loop started
from the post-driver mix value. -/
def blockRun (tanh : ℚ → ℚ) (inputs : ℕ → List ℚ) (s : State) (ch : ℕ) :
    ChanRun × List ℚ :=
  if ch = 0 then driverRun tanh inputs s
  else stepChannel tanh s false (mixAfterBlock tanh inputs s) ch (inputs ch)

/-- The audio-path body of step (the source from reading the block
constants to the end of the function, excluding the card-mount poll).
Channel 0 runs first with the stored crossfadeMix; if crossfading, the
local crossfadeMix variable is then updated to channel 0's final localMix,
so every later channel starts from that end-of-block value.  After the
channel loop, a finished crossfade (mix at or above 1) commits the pending
kernels over the active ones for every channel and the first kernelSize
taps, clears crossfading and resets the mix; an unfinished one stores the
advanced mix. -/
def stepBlock (tanh : ℚ → ℚ) (inputs : ℕ → List ℚ) (s : State) :
    State × (ℕ → List ℚ) :=
  let channels1 : ℕ → ChanSp :=
    fun ch => if ch < s.numChannels then
        ⟨(blockRun tanh inputs s ch).1.delay, (blockRun tanh inputs s ch).1.wp⟩
      else s.channels ch
  let outs : ℕ → List ℚ :=
    fun ch => if ch < s.numChannels then (blockRun tanh inputs s ch).2 else []
  let s1 := { s with channels := channels1 }
  let s2 :=
    if s.crossfading then
      if 1 ≤ mixAfterBlock tanh inputs s then
        { s1 with
          kernels := fun ch i =>
            if ch < s.numChannels ∧ i < s.kernelSize then s.newKernels ch i
            else s.kernels ch i
          crossfading := false
          crossfadeMix := 0 }
      else { s1 with crossfadeMix := mixAfterBlock tanh inputs s }
    else s1
  (s2, outs)

/-- The per-frame output bus write of step: overwrite in replace mode,
accumulate otherwise. -/
def writeBus (replace : Bool) (prev mixed : ℚ) : ℚ :=
  if replace then mixed else prev + mixed

/-- The state after construct: the DTC is zeroed (so every delay line,
write cursor, kernel and the crossfade state are zero), the cached
parameter values get their documented defaults (depth 0.5, gain 1,
saturation 0, kernel size 256), no wavetable is loaded, and the raw
Index/Spread values hold their parameter defaults 500 and 0. -/
def initState (numChannels : ℕ) : State where
  channels := fun _ => ⟨fun _ => 0, 0⟩
  kernels := fun _ _ => 0
  newKernels := fun _ _ => 0
  crossfadeMix := 0
  crossfading := false
  depth := 1 / 2
  gain := 1
  saturation := 0
  kernelSize := 256
  kernelMask := 255
  numChannels := numChannels
  wavetableLoaded := false
  awaitingCallback := false
  cardMounted := false
  error := false
  usingMipMaps := false
  numWaves := 0
  table := fun _ => 0
  vIndex := 500
  vSpread := 0

/-- The delay-line indices one stepSample writes: wp and wp + kernelSize. -/
def sampleWriteIndices (wp ks : ℕ) : Finset ℕ := {wp, wp + ks}

/-- The delay-line indices one stepSample convolution reads: the window
descending from wp + kernelSize, one index per kernel tap. -/
def sampleReadIndices (wp ks : ℕ) : Finset ℕ :=
  (Finset.range ks).image fun k => wp + ks - k

/-! ## General lemmas -/

/-- Every configured kernel size is positive and at most kMaxKernelSize. -/
lemma kernelSize_bounds {ks : ℕ} (h : ks ∈ kKernelSizes) :
    0 < ks ∧ ks ≤ kMaxKernelSize := by
  fin_cases h <;> simp [kMaxKernelSize]

/-- updateKernel only ever touches the active kernel set. -/
lemma updateKernel_untouched (s : State) :
    (updateKernel s).crossfading = s.crossfading
    ∧ (updateKernel s).crossfadeMix = s.crossfadeMix
    ∧ (updateKernel s).channels = s.channels
    ∧ (updateKernel s).newKernels = s.newKernels := by
  unfold updateKernel
  split
  · exact ⟨rfl, rfl, rfl, rfl⟩
  · split
    · exact ⟨rfl, rfl, rfl, rfl⟩
    · exact ⟨rfl, rfl, rfl, rfl⟩

/-- updateKernel rebuilds the active kernels exactly when a loaded,
error-free wavetable with usable mipmap data is present. -/
lemma updateKernel_kernels (s : State) (h1 : s.wavetableLoaded = true)
    (h2 : s.error = false) (h3 : s.usingMipMaps = true) (h4 : s.numWaves ≠ 0) :
    (updateKernel s).kernels = buildAllOf s := by
  unfold updateKernel
  rw [if_neg (by simp [h1, h2]), if_neg (by simp [h3, h4])]

/-- A reload completion with usable mipmap data builds the pending set and
starts the crossfade. -/
lemma wavetableCallback_reload (s : State) (h1 : s.wavetableLoaded = true)
    (h2 : s.error = false) (h3 : s.usingMipMaps = true) (h4 : s.numWaves ≠ 0) :
    wavetableCallback s
      = { s with awaitingCallback := false, newKernels := buildAllOf s,
                 crossfadeMix := 0, crossfading := true } := by
  unfold wavetableCallback updateKernelWithCrossfade
  rw [if_pos (by simp [h2]), if_pos h1, if_neg (by simp [h2]),
    if_neg (by simp [h3, h4])]
  rfl

/-- A reload completion without usable mipmap data only clears the
awaiting flag: kernels and crossfade state are untouched. -/
lemma wavetableCallback_reload_noMip (s : State) (h1 : s.wavetableLoaded = true)
    (h2 : s.error = false) (h3 : s.usingMipMaps = false ∨ s.numWaves = 0) :
    wavetableCallback s = { s with awaitingCallback := false } := by
  unfold wavetableCallback updateKernelWithCrossfade
  rw [if_pos (by simp [h2]), if_pos h1, if_neg (by simp [h2]),
    if_pos (by rcases h3 with h | h <;> simp [h])]

/-- The first successful load marks the table loaded and builds the active
set directly, with no mipmap guard and no crossfade. -/
lemma wavetableCallback_first (s : State) (h1 : s.wavetableLoaded = false)
    (h2 : s.error = false) :
    wavetableCallback s
      = { s with awaitingCallback := false, wavetableLoaded := true,
                 kernels := buildAllOf s } := by
  unfold wavetableCallback
  rw [if_pos (by simp [h2]), if_neg (by simp [h1])]
  rfl

/-- A failed load completion only clears the awaiting flag. -/
lemma wavetableCallback_error (s : State) (h2 : s.error = true) :
    wavetableCallback s = { s with awaitingCallback := false } := by
  unfold wavetableCallback
  rw [if_neg (by simp [h2])]

/-- Unfolding equation for stepFrames on a nonempty block. -/
lemma stepFrames_cons (tanh : ℚ → ℚ) (cfg : FrameCfg) (kernel newKernel : ℕ → ℚ)
    (dry : ℚ) (rest : List ℚ) (c : ChanRun) :
    stepFrames tanh cfg kernel newKernel (dry :: rest) c
      = ((stepFrames tanh cfg kernel newKernel rest
            (stepSample tanh cfg kernel newKernel dry c).1).1,
         (stepSample tanh cfg kernel newKernel dry c).2
           :: (stepFrames tanh cfg kernel newKernel rest
                 (stepSample tanh cfg kernel newKernel dry c).1).2) := rfl

/-- The delay line after one sample is the dual write. -/
lemma stepSample_delay (tanh : ℚ → ℚ) (cfg : FrameCfg) (kernel newKernel : ℕ → ℚ)
    (dry : ℚ) (c : ChanRun) :
    (stepSample tanh cfg kernel newKernel dry c).1.delay
      = writeDelay c.delay c.wp cfg.kernelSize dry := rfl

/-- The cursor after one sample is the masked increment. -/
lemma stepSample_wp (tanh : ℚ → ℚ) (cfg : FrameCfg) (kernel newKernel : ℕ → ℚ)
    (dry : ℚ) (c : ChanRun) :
    (stepSample tanh cfg kernel newKernel dry c).1.wp
      = (c.wp + 1) &&& cfg.kernelMask := rfl

/-- The local mix after one sample: advanced by the rate only on the driver
channel, only while convolving and crossfading. -/
lemma stepSample_localMix (tanh : ℚ → ℚ) (cfg : FrameCfg) (kernel newKernel : ℕ → ℚ)
    (dry : ℚ) (c : ChanRun) :
    (stepSample tanh cfg kernel newKernel dry c).1.localMix
      = if (cfg.doConvolve && cfg.crossfading && cfg.isDriver) = true
        then c.localMix + kCrossfadeRate else c.localMix := rfl

/-- The conditioned output of one sample. -/
lemma stepSample_out (tanh : ℚ → ℚ) (cfg : FrameCfg) (kernel newKernel : ℕ → ℚ)
    (dry : ℚ) (c : ChanRun) :
    (stepSample tanh cfg kernel newKernel dry c).2
      = postMix tanh cfg dry
          (wetValue cfg kernel newKernel c.localMix
            (writeDelay c.delay c.wp cfg.kernelSize dry) c.wp dry) := rfl

/-- Processing a concatenated block is processing the pieces in order. -/
lemma stepFrames_append (tanh : ℚ → ℚ) (cfg : FrameCfg) (kernel newKernel : ℕ → ℚ)
    (ds1 ds2 : List ℚ) (c : ChanRun) :
    stepFrames tanh cfg kernel newKernel (ds1 ++ ds2) c
      = ((stepFrames tanh cfg kernel newKernel ds2
            (stepFrames tanh cfg kernel newKernel ds1 c).1).1,
         (stepFrames tanh cfg kernel newKernel ds1 c).2
           ++ (stepFrames tanh cfg kernel newKernel ds2
                 (stepFrames tanh cfg kernel newKernel ds1 c).1).2) := by
  induction ds1 generalizing c with
  | nil => simp [stepFrames]
  | cons d rest ih => simp [stepFrames_cons, ih]

/-- On the driver channel, while crossfading with a loaded table, the local
mix advances by exactly one rate step per sample. -/
lemma stepFrames_driver_mix (tanh : ℚ → ℚ) (cfg : FrameCfg)
    (kernel newKernel : ℕ → ℚ) (ds : List ℚ) (c : ChanRun)
    (h1 : cfg.doConvolve = true) (h2 : cfg.crossfading = true)
    (h3 : cfg.isDriver = true) :
    (stepFrames tanh cfg kernel newKernel ds c).1.localMix
      = c.localMix + ds.length * kCrossfadeRate := by
  induction ds generalizing c with
  | nil => simp [stepFrames]
  | cons d rest ih =>
      rw [stepFrames_cons]
      simp only [ih, stepSample_localMix, h1, h2, h3, Bool.and_self, if_true,
        List.length_cons]
      push_cast
      ring

/-- Off the driver channel the local mix copy never changes. -/
lemma stepFrames_mix_const (tanh : ℚ → ℚ) (cfg : FrameCfg)
    (kernel newKernel : ℕ → ℚ) (ds : List ℚ) (c : ChanRun)
    (h3 : cfg.isDriver = false) :
    (stepFrames tanh cfg kernel newKernel ds c).1.localMix = c.localMix := by
  induction ds generalizing c with
  | nil => rfl
  | cons d rest ih =>
      rw [stepFrames_cons]
      simp only [ih, stepSample_localMix, h3, Bool.and_false, Bool.false_eq_true,
        if_false]

/-- The local mix never decreases across a block, and grows by at most one
rate step per processed sample. -/
lemma stepFrames_mix_bounds (tanh : ℚ → ℚ) (cfg : FrameCfg)
    (kernel newKernel : ℕ → ℚ) (ds : List ℚ) (c : ChanRun) :
    c.localMix ≤ (stepFrames tanh cfg kernel newKernel ds c).1.localMix
    ∧ (stepFrames tanh cfg kernel newKernel ds c).1.localMix
        ≤ c.localMix + ds.length * kCrossfadeRate := by
  induction ds generalizing c with
  | nil => simp [stepFrames]
  | cons d rest ih =>
      rw [stepFrames_cons]
      have hrate : (0:ℚ) ≤ kCrossfadeRate := by norm_num [kCrossfadeRate]
      have hstep : c.localMix ≤ (stepSample tanh cfg kernel newKernel d c).1.localMix
          ∧ (stepSample tanh cfg kernel newKernel d c).1.localMix
              ≤ c.localMix + kCrossfadeRate := by
        rw [stepSample_localMix]
        split
        · exact ⟨by linarith, le_refl _⟩
        · exact ⟨le_refl _, by linarith⟩
      obtain ⟨ih1, ih2⟩ := ih (stepSample tanh cfg kernel newKernel d c).1
      constructor
      · exact le_trans hstep.1 ih1
      · refine le_trans ih2 ?_
        have := hstep.2
        simp only [List.length_cons]
        push_cast
        linarith

/-- A convolution against the all-zero kernel is zero. -/
lemma convolveAt_zero_kernel (delay : ℕ → ℚ) (wp ks : ℕ) :
    convolveAt delay wp ks (fun _ => 0) = 0 := by
  simp [convolveAt]

/-- Convolving right after an impulse is written into a silent delay line at
cursor 0 picks out the first kernel tap. -/
lemma convolveAt_impulse (ks : ℕ) (hks : 0 < ks) (d : ℚ) (h : ℕ → ℚ) :
    convolveAt (writeDelay (fun _ => 0) 0 ks d) 0 ks h = d * h 0 := by
  unfold convolveAt writeDelay
  rw [Finset.sum_eq_single_of_mem 0 (Finset.mem_range.mpr hks)]
  · simp
  · intro b hb hb0
    have hblt := Finset.mem_range.mp hb
    have hni : ¬(ks - b = 0 ∨ ks - b = ks) := by omega
    simp only [zero_add]
    rw [if_neg hni]
    simp

/-- Interpolating a constant wavetable gives the constant sample value at
every tap. -/
lemma rawKernel_const (c : ℤ) (numWaves ks : ℕ) (p : ℚ) (i : ℕ) :
    rawKernel (fun _ => c) numWaves ks p i = (c : ℚ) / 32768 := by
  simp [rawKernel, mipSample]

/-- The absolute sum of the raw kernel over a constant wavetable. -/
lemma kernL1_const (c : ℤ) (numWaves ks : ℕ) (p : ℚ) :
    kernL1 (fun _ => c) numWaves ks p = (ks : ℚ) * |(c : ℚ) / 32768| := by
  unfold kernL1
  rw [Finset.sum_congr rfl fun i _ => by rw [rawKernel_const]]
  rw [Finset.sum_const, Finset.card_range, nsmul_eq_mul]

/-- With depth 0 the conditioned output ignores the wet sample entirely. -/
lemma postMix_depth_zero (tanh : ℚ → ℚ) (cfg : FrameCfg) (dry wet : ℚ)
    (h : cfg.depth = 0) :
    postMix tanh cfg dry wet
      = (if 1 / 1000 < cfg.saturation then softSaturate tanh dry cfg.saturation
         else dry) * cfg.gain := by
  unfold postMix
  rw [h]
  norm_num

/-- With depth 0 every output of a block is the dry sample, saturated and
scaled, independent of the kernels, the crossfade state and the delay
line. -/
lemma stepFrames_out_depth_zero (tanh : ℚ → ℚ) (cfg : FrameCfg)
    (kernel newKernel : ℕ → ℚ) (ds : List ℚ) (c : ChanRun)
    (h : cfg.depth = 0) :
    (stepFrames tanh cfg kernel newKernel ds c).2
      = ds.map fun d =>
          (if 1 / 1000 < cfg.saturation then softSaturate tanh d cfg.saturation
           else d) * cfg.gain := by
  induction ds generalizing c with
  | nil => rfl
  | cons d rest ih =>
      rw [stepFrames_cons]
      simp only [List.map_cons, ih]
      rw [stepSample_out, postMix_depth_zero tanh cfg d _ h]

/-- Without a loaded wavetable the wet path is the identity. -/
lemma wetValue_noConvolve (cfg : FrameCfg) (kernel newKernel : ℕ → ℚ)
    (m : ℚ) (delay : ℕ → ℚ) (wp : ℕ) (dry : ℚ) (h : cfg.doConvolve = false) :
    wetValue cfg kernel newKernel m delay wp dry = dry := by
  unfold wetValue
  rw [h]
  simp

/-- Without a loaded wavetable every output of a block is the dry sample
passed through the depth mix, saturation and gain stages. -/
lemma stepFrames_out_noConvolve (tanh : ℚ → ℚ) (cfg : FrameCfg)
    (kernel newKernel : ℕ → ℚ) (ds : List ℚ) (c : ChanRun)
    (h : cfg.doConvolve = false) :
    (stepFrames tanh cfg kernel newKernel ds c).2
      = ds.map fun d => postMix tanh cfg d d := by
  induction ds generalizing c with
  | nil => rfl
  | cons d rest ih =>
      rw [stepFrames_cons]
      simp only [List.map_cons, ih]
      rw [stepSample_out, wetValue_noConvolve _ _ _ _ _ _ _ h]

/-- The cursor is strictly below the kernel size after every sample,
whatever it was before, because the mask is kernelSize - 1. -/
lemma stepSample_wp_lt (tanh : ℚ → ℚ) (cfg : FrameCfg) (kernel newKernel : ℕ → ℚ)
    (dry : ℚ) (c : ChanRun) (hks : cfg.kernelSize ∈ kKernelSizes)
    (hmask : cfg.kernelMask = cfg.kernelSize - 1) :
    (stepSample tanh cfg kernel newKernel dry c).1.wp < kMaxKernelSize := by
  rw [stepSample_wp, hmask]
  obtain ⟨hpos, hle⟩ := kernelSize_bounds hks
  have hand : (c.wp + 1) &&& (cfg.kernelSize - 1) ≤ cfg.kernelSize - 1 :=
    Nat.and_le_right
  omega

/-- The cursor bound is preserved across a whole block. -/
lemma stepFrames_wp_lt (tanh : ℚ → ℚ) (cfg : FrameCfg) (kernel newKernel : ℕ → ℚ)
    (ds : List ℚ) (c : ChanRun) (hks : cfg.kernelSize ∈ kKernelSizes)
    (hmask : cfg.kernelMask = cfg.kernelSize - 1) (hwp : c.wp < kMaxKernelSize) :
    (stepFrames tanh cfg kernel newKernel ds c).1.wp < kMaxKernelSize := by
  induction ds generalizing c with
  | nil => exact hwp
  | cons d rest ih =>
      rw [stepFrames_cons]
      exact ih _ (stepSample_wp_lt tanh cfg kernel newKernel d c hks hmask)

/-- Above the energy threshold every tap is the raw tap scaled by the
reciprocal absolute sum. -/
lemma buildKernelAtIndex_pos (table : ℤ → ℤ) (numWaves ks : ℕ) (p : ℚ)
    (h : 1 / 1000 < kernL1 table numWaves ks p) (i : ℕ) :
    buildKernelAtIndex table numWaves ks p i
      = rawKernel table numWaves ks p i * (1 / kernL1 table numWaves ks p) := by
  unfold buildKernelAtIndex
  rw [if_pos h]

/-- At or below the energy threshold the taps are left raw. -/
lemma buildKernelAtIndex_neg (table : ℤ → ℤ) (numWaves ks : ℕ) (p : ℚ)
    (h : ¬ 1 / 1000 < kernL1 table numWaves ks p) (i : ℕ) :
    buildKernelAtIndex table numWaves ks p i = rawKernel table numWaves ks p i := by
  unfold buildKernelAtIndex
  rw [if_neg h]

/-! ## Claim theorems -/

/-- Claim C1: for position in the unit interval, a configured kernel size
and at least one wave, buildKernelAtIndex derives the clamped offset
position * (numWaves - 1) confined to [0, numWaves - 1 - epsilon], the
floor wave pair and fraction, interpolates the int16 snapshots divided by
32768 per tap, and when the accumulated absolute sum exceeds 0.001 scales
every tap by its reciprocal so the built kernel has absolute sum exactly 1,
leaving the taps unnormalized otherwise. -/
theorem c1_kernel_normalization (table : ℤ → ℤ) (numWaves ks : ℕ) (p : ℚ)
    (hp0 : 0 ≤ p) (hp1 : p ≤ 1) (hks : ks ∈ kKernelSizes) (hnw : 1 ≤ numWaves) :
    kernOffset numWaves p
      = max 0 (min (p * ((numWaves : ℚ) - 1)) (((numWaves : ℚ) - 1) - 1 / 10000))
    ∧ wave0 numWaves p = ⌊kernOffset numWaves p⌋
    ∧ wave1 numWaves p = min (wave0 numWaves p + 1) ((numWaves : ℤ) - 1)
    ∧ kernFrac numWaves p = kernOffset numWaves p - (wave0 numWaves p : ℚ)
    ∧ (∀ i, rawKernel table numWaves ks p i
        = mipSample table numWaves ks (wave0 numWaves p) i
          + kernFrac numWaves p *
            (mipSample table numWaves ks (wave1 numWaves p) i
              - mipSample table numWaves ks (wave0 numWaves p) i))
    ∧ (1 / 1000 < kernL1 table numWaves ks p →
        (∑ i in Finset.range ks, |buildKernelAtIndex table numWaves ks p i|) = 1
        ∧ ∀ i, buildKernelAtIndex table numWaves ks p i
            = rawKernel table numWaves ks p i * (1 / kernL1 table numWaves ks p))
    ∧ (¬ 1 / 1000 < kernL1 table numWaves ks p →
        ∀ i, buildKernelAtIndex table numWaves ks p i
          = rawKernel table numWaves ks p i) := by
  refine ⟨?_, rfl, rfl, rfl, fun i => rfl, fun h => ⟨?_, buildKernelAtIndex_pos table numWaves ks p h⟩,
    buildKernelAtIndex_neg table numWaves ks p⟩
  · unfold kernOffset clamp01
    rw [min_eq_right hp1, max_eq_right hp0]
  · have hpos : 0 < kernL1 table numWaves ks p := lt_trans (by norm_num) h
    have hterm : ∀ i ∈ Finset.range ks,
        |buildKernelAtIndex table numWaves ks p i|
          = |rawKernel table numWaves ks p i| * (1 / kernL1 table numWaves ks p) := by
      intro i _
      rw [buildKernelAtIndex_pos table numWaves ks p h i, abs_mul,
        abs_of_pos (div_pos one_pos hpos)]
    rw [Finset.sum_congr rfl hterm, ← Finset.sum_mul]
    have hdef : (∑ i in Finset.range ks, |rawKernel table numWaves ks p i|)
        = kernL1 table numWaves ks p := rfl
    rw [hdef, mul_one_div, div_self (ne_of_gt hpos)]

/-- Witness for c1_kernel_normalization: a constant wavetable with two
waves at kernel size 64 yields a built kernel of absolute sum exactly 1. -/
theorem c1_wit :
    (0 ≤ (1:ℚ)/2) ∧ ((1:ℚ)/2 ≤ 1) ∧ 64 ∈ kKernelSizes ∧ 1 ≤ 2
    ∧ (∑ i in Finset.range 64, |buildKernelAtIndex (fun _ => 16384) 2 64 (1/2) i|) = 1 := by
  have h := c1_kernel_normalization (fun _ => 16384) 2 64 (1/2)
    (by norm_num) (by norm_num) (by decide) (by norm_num)
  have hL : (1:ℚ)/1000 < kernL1 (fun _ => 16384) 2 64 (1/2) := by
    rw [kernL1_const]
    norm_num [abs_of_pos]
  exact ⟨by norm_num, by norm_num, by decide, by norm_num, (h.2.2.2.2.2.1 hL).1⟩

/-- Claim C5: with negligible spread or one channel, buildAllKernels builds
one kernel at the base position shared by every channel slot; otherwise
channel ch gets position + spread * (ch/(numChannels-1) - 1/2), so for two
channels the kernels sit at position minus and plus half the spread. -/
theorem c5_spread_expander (table : ℤ → ℤ) (numWaves ks numChannels : ℕ)
    (vIndex vSpread : ℤ) :
    ((vSpread : ℚ) * (1/1000) < 1/1000 ∨ numChannels = 1 →
      ∀ ch, buildAllKernels table numWaves ks numChannels vIndex vSpread ch
        = buildKernelAtIndex table numWaves ks ((vIndex : ℚ) * (1/1000)))
    ∧ (¬((vSpread : ℚ) * (1/1000) < 1/1000 ∨ numChannels = 1) →
      ∀ ch, buildAllKernels table numWaves ks numChannels vIndex vSpread ch
        = buildKernelAtIndex table numWaves ks
            ((vIndex : ℚ) * (1/1000)
              + (vSpread : ℚ) * (1/1000) * ((ch : ℚ) / ((numChannels : ℚ) - 1) - 1/2)))
    ∧ (numChannels = 2 → ¬((vSpread : ℚ) * (1/1000) < 1/1000) →
      buildAllKernels table numWaves ks numChannels vIndex vSpread 0
        = buildKernelAtIndex table numWaves ks
            ((vIndex : ℚ) * (1/1000) - (vSpread : ℚ) * (1/1000) / 2)
      ∧ buildAllKernels table numWaves ks numChannels vIndex vSpread 1
        = buildKernelAtIndex table numWaves ks
            ((vIndex : ℚ) * (1/1000) + (vSpread : ℚ) * (1/1000) / 2)) := by
  refine ⟨fun h ch => ?_, fun h ch => ?_, fun h2 hs => ?_⟩
  · simp only [buildAllKernels]
    rw [if_pos h]
  · simp only [buildAllKernels]
    rw [if_neg h]
  · subst h2
    have hcond : ¬((vSpread : ℚ) * (1/1000) < 1/1000 ∨ (2:ℕ) = 1) := by
      push_neg
      exact ⟨not_lt.mp hs, by norm_num⟩
    constructor
    · simp only [buildAllKernels]
      rw [if_neg hcond]
      exact congrArg (buildKernelAtIndex table numWaves ks) (by push_cast; ring)
    · simp only [buildAllKernels]
      rw [if_neg hcond]
      exact congrArg (buildKernelAtIndex table numWaves ks) (by push_cast; ring)

/-- Witness for c5_spread_expander: two channels at full spread land at
position minus and plus half the spread. -/
theorem c5_wit :
    ¬(((1000:ℤ) : ℚ) * (1/1000) < 1/1000)
    ∧ buildAllKernels (fun _ => 0) 1 64 2 500 1000 0
        = buildKernelAtIndex (fun _ => 0) 1 64
            (((500:ℤ) : ℚ) * (1/1000) - ((1000:ℤ) : ℚ) * (1/1000) / 2)
    ∧ buildAllKernels (fun _ => 0) 1 64 2 500 1000 1
        = buildKernelAtIndex (fun _ => 0) 1 64
            (((500:ℤ) : ℚ) * (1/1000) + ((1000:ℤ) : ℚ) * (1/1000) / 2) := by
  have hs : ¬(((1000:ℤ) : ℚ) * (1/1000) < 1/1000) := by norm_num
  have h := (c5_spread_expander (fun _ => 0) 1 64 2 500 1000).2.2 rfl hs
  exact ⟨hs, h.1, h.2⟩

/-- Claim C7: every sample is conditioned as
mixed = dry * (1 - depth) + wet * depth, optionally saturated, then scaled
by the cached gain, which parameterChanged derives as 10 to the power
gainDb/20; with depth 0 the channel output is the (optionally saturated)
dry sample times the gain, for any kernels, crossfade state and delay
line, and the bus write overwrites in replace mode and accumulates
otherwise. -/
theorem c7_output_mix (tanh pow10 : ℚ → ℚ) (readOk : Bool) (cfg : FrameCfg)
    (kernel newKernel : ℕ → ℚ) (ds : List ℚ) (c : ChanRun)
    (dry wet prev m : ℚ) (v : ℤ) (s : State) :
    postMix tanh cfg dry wet
      = (if 1/1000 < cfg.saturation
         then softSaturate tanh (dry * (1 - cfg.depth) + wet * cfg.depth) cfg.saturation
         else dry * (1 - cfg.depth) + wet * cfg.depth) * cfg.gain
    ∧ (parameterChanged pow10 readOk .gain v s).gain = pow10 (((v : ℚ) / 10) / 20)
    ∧ (cfg.depth = 0 →
        postMix tanh cfg dry wet
          = (if 1/1000 < cfg.saturation then softSaturate tanh dry cfg.saturation else dry)
              * cfg.gain)
    ∧ (cfg.depth = 0 →
        (stepFrames tanh cfg kernel newKernel ds c).2
          = ds.map fun d =>
              (if 1/1000 < cfg.saturation then softSaturate tanh d cfg.saturation else d)
                * cfg.gain)
    ∧ writeBus true prev m = m
    ∧ writeBus false prev m = prev + m := by
  exact ⟨rfl, rfl, postMix_depth_zero tanh cfg dry wet,
    stepFrames_out_depth_zero tanh cfg kernel newKernel ds c, rfl, rfl⟩

/-- Witness for c7_output_mix: with depth 0, unit gain, no saturation, a
block passes its dry samples straight through whatever kernels. -/
theorem c7_wit :
    (stepFrames (fun q => q) ⟨false, false, false, 64, 63, 0, 1, 0⟩
        (fun _ => 0) (fun _ => 0) [5] ⟨fun _ => 0, 0, 0⟩).2 = [5] := by
  have h := (c7_output_mix (fun q => q) (fun q => q) false
      ⟨false, false, false, 64, 63, 0, 1, 0⟩ (fun _ => 0) (fun _ => 0) [5]
      ⟨fun _ => 0, 0, 0⟩ 0 0 0 0 0 (initState 1)).2.2.2.1 rfl
  rw [h]
  norm_num

/-- Claim C8: softSaturate returns its input untouched whenever the amount
is below 0.001 (and then the whole pipeline applies no tanh), and
otherwise applies tanh(x * drive)/tanh(drive) with drive = 1 + 4*amount;
in particular amount one half at input one fifth yields
tanh(3/5)/tanh(3). -/
theorem c8_soft_saturation (tanh : ℚ → ℚ) (cfg : FrameCfg) (x s dry wet : ℚ) :
    (s < 1/1000 → softSaturate tanh x s = x)
    ∧ (¬ s < 1/1000 →
        softSaturate tanh x s = tanh (x * (1 + s * 4)) / tanh (1 + s * 4))
    ∧ softSaturate tanh (1/5) (1/2) = tanh (3/5) / tanh 3
    ∧ (cfg.saturation < 1/1000 →
        postMix tanh cfg dry wet
          = (dry * (1 - cfg.depth) + wet * cfg.depth) * cfg.gain) := by
  refine ⟨fun h => ?_, fun h => ?_, ?_, fun h => ?_⟩
  · unfold softSaturate
    rw [if_pos h]
  · unfold softSaturate
    rw [if_neg h]
  · unfold softSaturate
    rw [if_neg (by norm_num)]
    rw [show ((1:ℚ)/5) * (1 + (1/2 : ℚ) * 4) = 3/5 by norm_num]
    rw [show (1:ℚ) + (1/2 : ℚ) * 4 = 3 by norm_num]
  · simp only [postMix]
    rw [if_neg (by linarith)]

/-- Witness for c8_soft_saturation: amount 0 leaves the sample alone. -/
theorem c8_wit :
    ((0:ℚ) < 1/1000) ∧ softSaturate (fun q => q) 7 0 = 7 := by
  exact ⟨by norm_num,
    (c8_soft_saturation (fun q => q) ⟨false, false, false, 64, 63, 0, 1, 0⟩
      7 0 0 0).1 (by norm_num)⟩

/-- A state in which a wavetable is already loaded and a new load has just
completed without error, but the new table reports no usable mipmap data. -/
def noMipReload : State :=
  { initState 2 with wavetableLoaded := true, usingMipMaps := false, numWaves := 3 }

/-- Counterexample to claim C2 as stated: a wavetable load that completes
successfully (error flag clear) while a kernel set is already active does
NOT enter Crossfading when the table reports usingMipMaps false: the
callback leaves the crossfade flag down and builds no pending kernels. -/
theorem c2_cex :
    noMipReload.wavetableLoaded = true ∧ noMipReload.error = false
    ∧ (wavetableCallback noMipReload).crossfading = false
    ∧ (wavetableCallback noMipReload).newKernels = noMipReload.newKernels := by
  have h := wavetableCallback_reload_noMip noMipReload rfl rfl (Or.inl rfl)
  rw [h]
  exact ⟨rfl, rfl, rfl, rfl⟩

/-- Claim C2, amended: the crossfade path on a successful reload
additionally requires usable multi-resolution data (usingMipMaps true and
numWaves nonzero); without it the callback changes nothing but the
awaiting flag.  The very first successful load builds the active set
directly with no crossfade (and no mipmap guard).  Direct parameter edits
never change the crossfade state, and the Index/Spread/Resolution edits
rebuild the active kernel set immediately when a loaded, error-free table
with usable mipmap data is present. -/
theorem c2_reload_crossfade (pow10 : ℚ → ℚ) (readOk : Bool) (v : ℤ) (s : State) :
    (s.wavetableLoaded = true → s.error = false → s.usingMipMaps = true →
     s.numWaves ≠ 0 →
      (wavetableCallback s).crossfading = true
      ∧ (wavetableCallback s).crossfadeMix = 0
      ∧ (wavetableCallback s).newKernels = buildAllOf s
      ∧ (wavetableCallback s).kernels = s.kernels)
    ∧ (s.wavetableLoaded = true → s.error = false →
       (s.usingMipMaps = false ∨ s.numWaves = 0) →
        wavetableCallback s = { s with awaitingCallback := false })
    ∧ (s.wavetableLoaded = false → s.error = false →
        (wavetableCallback s).wavetableLoaded = true
        ∧ (wavetableCallback s).kernels = buildAllOf s
        ∧ (wavetableCallback s).crossfading = s.crossfading
        ∧ (wavetableCallback s).crossfadeMix = s.crossfadeMix)
    ∧ (∀ q : Param, (parameterChanged pow10 readOk q v s).crossfading = s.crossfading
        ∧ (parameterChanged pow10 readOk q v s).crossfadeMix = s.crossfadeMix)
    ∧ (s.wavetableLoaded = true → s.error = false → s.usingMipMaps = true →
       s.numWaves ≠ 0 →
        (parameterChanged pow10 readOk .index v s).kernels
          = buildAllKernels s.table s.numWaves s.kernelSize s.numChannels v s.vSpread
        ∧ (parameterChanged pow10 readOk .spread v s).kernels
          = buildAllKernels s.table s.numWaves s.kernelSize s.numChannels s.vIndex v
        ∧ (parameterChanged pow10 readOk .resolution v s).kernels
          = buildAllKernels s.table s.numWaves (kernelSizeOf v) s.numChannels
              s.vIndex s.vSpread) := by
  refine ⟨fun h1 h2 h3 h4 => ?_, wavetableCallback_reload_noMip s,
    fun h1 h2 => ?_, fun q => ?_, fun h1 h2 h3 h4 => ?_⟩
  · rw [wavetableCallback_reload s h1 h2 h3 h4]
    exact ⟨rfl, rfl, rfl, rfl⟩
  · rw [wavetableCallback_first s h1 h2]
    exact ⟨rfl, rfl, rfl, rfl⟩
  · cases q with
    | wavetable =>
        simp only [parameterChanged]
        split
        · exact ⟨rfl, rfl⟩
        · exact ⟨rfl, rfl⟩
    | index =>
        exact ⟨(updateKernel_untouched _).1, (updateKernel_untouched _).2.1⟩
    | spread =>
        exact ⟨(updateKernel_untouched _).1, (updateKernel_untouched _).2.1⟩
    | depth => exact ⟨rfl, rfl⟩
    | gain => exact ⟨rfl, rfl⟩
    | saturation => exact ⟨rfl, rfl⟩
    | resolution =>
        exact ⟨(updateKernel_untouched _).1, (updateKernel_untouched _).2.1⟩
  · exact ⟨updateKernel_kernels { s with vIndex := v } h1 h2 h3 h4,
      updateKernel_kernels { s with vSpread := v } h1 h2 h3 h4,
      updateKernel_kernels
        { s with kernelSize := kernelSizeOf v, kernelMask := kernelSizeOf v - 1 }
        h1 h2 h3 h4⟩

/-- A reload state with usable mipmap data, for the c2 witness. -/
def mipReload : State :=
  { initState 2 with wavetableLoaded := true, usingMipMaps := true, numWaves := 3 }

/-- Witness for c2_reload_crossfade: a concrete successful mipmap reload
enters Crossfading with the mix reset to 0. -/
theorem c2_wit :
    mipReload.wavetableLoaded = true ∧ mipReload.error = false
    ∧ mipReload.usingMipMaps = true ∧ mipReload.numWaves ≠ 0
    ∧ (wavetableCallback mipReload).crossfading = true
    ∧ (wavetableCallback mipReload).crossfadeMix = 0 := by
  have h := (c2_reload_crossfade (fun q => q) false 0 mipReload).1 rfl rfl rfl
    (by decide)
  exact ⟨rfl, rfl, rfl, by decide, h.1, h.2.1⟩

/-- Claim C3: a starting crossfade resets the mix to 0; the driver channel
advances the mix by the fixed rate 1/(0.05 * 48000) once per sample, so it
is monotone and the mix starting at 0 reaches 1 after exactly 2400 driver
samples and not before; and at the end of the block in which the advanced
mix reaches 1, the pending kernels are copied over the active ones for
every channel, crossfading is cleared and the mix is reset to 0, while an
unfinished block just stores the advanced mix. -/
theorem c3_crossfade (tanh : ℚ → ℚ) (cfg : FrameCfg) (kernel newKernel : ℕ → ℚ)
    (ds : List ℚ) (dry : ℚ) (c : ChanRun) (s : State) (inputs : ℕ → List ℚ)
    (hcv : cfg.doConvolve = true) (hcf : cfg.crossfading = true)
    (hdrv : cfg.isDriver = true) (hxf : s.crossfading = true)
    (hload : s.wavetableLoaded = true) :
    kCrossfadeRate = 1 / ((5/100) * 48000)
    ∧ (s.error = false → s.usingMipMaps = true → s.numWaves ≠ 0 →
        (updateKernelWithCrossfade s).crossfadeMix = 0
        ∧ (updateKernelWithCrossfade s).crossfading = true)
    ∧ (stepSample tanh cfg kernel newKernel dry c).1.localMix
        = c.localMix + kCrossfadeRate
    ∧ (stepFrames tanh cfg kernel newKernel ds c).1.localMix
        = c.localMix + ds.length * kCrossfadeRate
    ∧ c.localMix ≤ (stepFrames tanh cfg kernel newKernel ds c).1.localMix
    ∧ (2400 : ℚ) * kCrossfadeRate = 1
    ∧ (∀ n : ℕ, 1 ≤ (n : ℚ) * kCrossfadeRate ↔ 2400 ≤ n)
    ∧ (1 ≤ s.crossfadeMix + ((inputs 0).length : ℚ) * kCrossfadeRate →
        (stepBlock tanh inputs s).1.crossfading = false
        ∧ (stepBlock tanh inputs s).1.crossfadeMix = 0
        ∧ ∀ ch2 < s.numChannels, ∀ i < s.kernelSize,
            (stepBlock tanh inputs s).1.kernels ch2 i = s.newKernels ch2 i)
    ∧ (¬ 1 ≤ s.crossfadeMix + ((inputs 0).length : ℚ) * kCrossfadeRate →
        (stepBlock tanh inputs s).1.crossfading = true
        ∧ (stepBlock tanh inputs s).1.crossfadeMix
            = s.crossfadeMix + ((inputs 0).length : ℚ) * kCrossfadeRate) := by
  have hmixdrv : (driverRun tanh inputs s).1.localMix
      = s.crossfadeMix + ((inputs 0).length : ℚ) * kCrossfadeRate := by
    unfold driverRun stepChannel
    exact stepFrames_driver_mix tanh (blockCfg s true) _ _ (inputs 0) _
      (by simpa [blockCfg] using hload) (by simpa [blockCfg] using hxf) rfl
  have hma : mixAfterBlock tanh inputs s
      = s.crossfadeMix + ((inputs 0).length : ℚ) * kCrossfadeRate := by
    simp only [mixAfterBlock, hxf, if_true]
    exact hmixdrv
  refine ⟨by norm_num [kCrossfadeRate], fun h2 h3 h4 => ?_, ?_, ?_, ?_, ?_, ?_,
    fun hge => ?_, fun hlt => ?_⟩
  · unfold updateKernelWithCrossfade
    rw [if_neg (by simp [h2]), if_neg (by simp [h3, h4])]
    exact ⟨rfl, rfl⟩
  · rw [stepSample_localMix, hcv, hcf, hdrv]
    simp
  · exact stepFrames_driver_mix tanh cfg kernel newKernel ds c hcv hcf hdrv
  · exact (stepFrames_mix_bounds tanh cfg kernel newKernel ds c).1
  · norm_num [kCrossfadeRate]
  · intro n
    rw [show kCrossfadeRate = 1/2400 from rfl,
      show (n : ℚ) * (1/2400) = (n : ℚ) / 2400 by ring,
      le_div_iff₀ (by norm_num : (0:ℚ) < 2400), one_mul]
    exact_mod_cast Iff.rfl
  · simp only [stepBlock, hxf, if_true]
    rw [hma, if_pos hge]
    refine ⟨rfl, rfl, fun ch2 hch2 i hi => ?_⟩
    exact if_pos ⟨hch2, hi⟩
  · simp only [stepBlock, hxf, if_true]
    rw [hma, if_neg hlt]
    exact ⟨rfl, rfl⟩

/-- A one-channel state mid-crossfade whose mix has already reached 1. -/
def c3state : State :=
  { initState 1 with wavetableLoaded := true, crossfading := true, crossfadeMix := 1,
                     kernelSize := 64, kernelMask := 63 }

/-- Witness for c3_crossfade: a concrete finished crossfade block clears
the crossfading flag and resets the mix. -/
theorem c3_wit :
    c3state.crossfading = true ∧ c3state.wavetableLoaded = true
    ∧ (1 ≤ c3state.crossfadeMix + (([(0:ℚ), 0, 0, 0]).length : ℚ) * kCrossfadeRate)
    ∧ (stepBlock (fun q => q) (fun _ => [0, 0, 0, 0]) c3state).1.crossfading = false
    ∧ (stepBlock (fun q => q) (fun _ => [0, 0, 0, 0]) c3state).1.crossfadeMix = 0 := by
  have hge : (1:ℚ) ≤ c3state.crossfadeMix
      + ((([(0:ℚ), 0, 0, 0]).length : ℕ) : ℚ) * kCrossfadeRate := by
    show (1:ℚ) ≤ 1 + ((4:ℕ) : ℚ) * kCrossfadeRate
    norm_num [kCrossfadeRate]
  have h := (c3_crossfade (fun q => q) ⟨true, true, true, 64, 63, 0, 1, 0⟩
      (fun _ => 0) (fun _ => 0) [] 0 ⟨fun _ => 0, 0, 0⟩ c3state
      (fun _ => [0, 0, 0, 0]) rfl rfl rfl rfl rfl).2.2.2.2.2.2.2.1 hge
  exact ⟨rfl, rfl, hge, h.1, h.2.1⟩

/-- Output of the first sample after construction when a unit impulse
arrives: the convolution picks out the first kernel tap (blended while
crossfading). -/
lemma stepSample_out_impulse (tanh : ℚ → ℚ) (cfg : FrameCfg)
    (kernel newKernel : ℕ → ℚ) (m : ℚ) (h1 : cfg.doConvolve = true)
    (hks : 0 < cfg.kernelSize) :
    (stepSample tanh cfg kernel newKernel 1 ⟨fun _ => 0, 0, m⟩).2
      = postMix tanh cfg 1
          (if cfg.crossfading then
             1 * kernel 0 + (1 * newKernel 0 - 1 * kernel 0) * m
           else 1 * kernel 0) := by
  rw [stepSample_out]
  congr 1
  simp only [wetValue, h1, eq_self_iff_true, if_true]
  rw [convolveAt_impulse cfg.kernelSize hks 1 kernel]
  by_cases h2 : cfg.crossfading = true
  · rw [if_pos h2, if_pos h2, convolveAt_impulse cfg.kernelSize hks 1 newKernel]
  · rw [if_neg h2, if_neg h2]

/-- With full depth, no saturation and unit gain, the conditioned output is
the wet sample itself. -/
lemma postMix_wet_only (tanh : ℚ → ℚ) (cfg : FrameCfg) (dry wet : ℚ)
    (hd : cfg.depth = 1) (hsat : cfg.saturation = 0) (hg : cfg.gain = 1) :
    postMix tanh cfg dry wet = wet := by
  simp only [postMix, hd, hsat, hg]
  norm_num

/-- A fresh one-channel engine about to receive its first load completion:
the load reports no mipmap data and a single wave; the buffer holds the
constant int16 value 16384; depth is set to full wet, kernel size 64. -/
def c4state : State :=
  { initState 1 with usingMipMaps := false, numWaves := 1,
                     table := fun _ => 16384, depth := 1,
                     kernelSize := 64, kernelMask := 63 }

/-- The engine state after that load completes. -/
def c4loaded : State := wavetableCallback c4state

/-- The active kernel the unguarded first-load build produces in c4loaded:
every tap is 1/64. -/
lemma c4loaded_kernel (i : ℕ) (hi : i < 64) : c4loaded.kernels 0 i = 1/64 := by
  show buildAllKernels (fun _ => (16384 : ℤ)) 1 64 1 500 0 0 i = 1/64
  simp only [buildAllKernels]
  rw [if_pos (Or.inr trivial)]
  have harg : ((500 : ℤ) : ℚ) * (1/1000) = 1/2 := by norm_num
  show buildKernelAtIndex (fun _ => (16384 : ℤ)) 1 64 (((500 : ℤ) : ℚ) * (1/1000)) i = 1/64
  rw [harg]
  have hL : kernL1 (fun _ => (16384 : ℤ)) 1 64 (1/2) = 32 := by
    rw [kernL1_const]
    norm_num [abs_of_pos]
  rw [buildKernelAtIndex_pos _ _ _ _ (by rw [hL]; norm_num) i, rawKernel_const, hL]
  norm_num

/-- Counterexample to claim C4 as stated: after a load that reports
usingMultiResolution false, convolution is NOT skipped.  In c4loaded
(depth 1, unit gain, no saturation) the claim predicts wet = dry, so the
first output of a unit-impulse block would be 1; the code convolves
against the kernel it built anyway and outputs 1/64. -/
theorem c4_cex :
    c4loaded.wavetableLoaded = true
    ∧ c4loaded.usingMipMaps = false
    ∧ ((stepBlock (fun q => q) (fun _ => [1, 0, 0, 0]) c4loaded).2 0).getD 0 0 = 1/64
    ∧ ((1 : ℚ)/64) ≠ 1 := by
  refine ⟨rfl, rfl, ?_, by norm_num⟩
  have hblk : (stepBlock (fun q => q) (fun _ => [1, 0, 0, 0]) c4loaded).2 0
      = (stepFrames (fun q => q) (blockCfg c4loaded true) (c4loaded.kernels 0)
          (c4loaded.newKernels 0) [1, 0, 0, 0] ⟨fun _ => 0, 0, 0⟩).2 := rfl
  rw [hblk, stepFrames_cons]
  simp only [List.getD_cons_zero]
  rw [stepSample_out_impulse (fun q => q) (blockCfg c4loaded true)
    (c4loaded.kernels 0) (c4loaded.newKernels 0) 0 rfl (by decide)]
  rw [show (blockCfg c4loaded true).crossfading = false from rfl]
  simp only [Bool.false_eq_true, if_false]
  rw [c4loaded_kernel 0 (by norm_num)]
  rw [postMix_wet_only (fun q => q) (blockCfg c4loaded true) 1 (1 * (1/64)) rfl rfl rfl]
  norm_num

/-- Claim C4, amended: convolution is skipped exactly when no load has
ever completed successfully (doConvolve mirrors wavetableLoaded only); in
that case every output is the dry sample passed through the depth mix,
saturation and gain stages.  A load reporting usingMultiResolution false
or numWaves 0 does not skip convolution: a first such successful load
marks the table loaded and builds the kernels unguarded, and a later one
keeps the previous kernels active, convolution continuing either way. -/
theorem c4_convolution_gating (tanh : ℚ → ℚ) (cfg : FrameCfg)
    (kernel newKernel : ℕ → ℚ) (ds : List ℚ) (c : ChanRun) (m : ℚ)
    (delay : ℕ → ℚ) (wp : ℕ) (dry : ℚ) (s : State) :
    (blockCfg s true).doConvolve = s.wavetableLoaded
    ∧ (cfg.doConvolve = false →
        wetValue cfg kernel newKernel m delay wp dry = dry)
    ∧ (cfg.doConvolve = false →
        (stepFrames tanh cfg kernel newKernel ds c).2
          = ds.map fun d => postMix tanh cfg d d)
    ∧ (s.wavetableLoaded = false → s.error = false →
        (wavetableCallback s).wavetableLoaded = true
        ∧ (wavetableCallback s).kernels = buildAllOf s)
    ∧ (s.wavetableLoaded = true → s.error = false →
       (s.usingMipMaps = false ∨ s.numWaves = 0) →
        (wavetableCallback s).wavetableLoaded = true
        ∧ (wavetableCallback s).kernels = s.kernels
        ∧ (wavetableCallback s).crossfading = s.crossfading) := by
  refine ⟨rfl, fun h => wetValue_noConvolve cfg kernel newKernel m delay wp dry h,
    fun h => stepFrames_out_noConvolve tanh cfg kernel newKernel ds c h,
    fun h1 h2 => ?_, fun h1 h2 h3 => ?_⟩
  · rw [wavetableCallback_first s h1 h2]
    exact ⟨rfl, rfl⟩
  · rw [wavetableCallback_reload_noMip s h1 h2 h3]
    exact ⟨h1, rfl, rfl⟩

/-- Witness for c4_convolution_gating: with nothing loaded, a unit impulse
passes through a full-wet unit-gain channel untouched. -/
theorem c4_wit :
    ((⟨false, false, true, 64, 63, 1, 1, 0⟩ : FrameCfg).doConvolve = false)
    ∧ (stepFrames (fun q => q) ⟨false, false, true, 64, 63, 1, 1, 0⟩
        (fun _ => 1/3) (fun _ => 1/5) [1, 0, 0, 0] ⟨fun _ => 0, 0, 0⟩).2
      = [1, 0, 0, 0] := by
  have h := (c4_convolution_gating (fun q => q) ⟨false, false, true, 64, 63, 1, 1, 0⟩
      (fun _ => 1/3) (fun _ => 1/5) [1, 0, 0, 0] ⟨fun _ => 0, 0, 0⟩ 0
      (fun _ => 0) 0 0 (initState 1)).2.2.1 rfl
  refine ⟨rfl, ?_⟩
  rw [h]
  have hpm : ∀ d : ℚ, postMix (fun q => q) (⟨false, false, true, 64, 63, 1, 1, 0⟩ : FrameCfg) d d
      = d := fun d => postMix_wet_only (fun q => q) _ d d rfl rfl rfl
  simp only [List.map_cons, List.map_nil, hpm]

/-- A two-channel state mid-crossfade with identical channels: zero active
kernels, a pending impulse kernel, full wet depth, unit gain, no
saturation. -/
def c6state : State :=
  { initState 2 with wavetableLoaded := true, crossfading := true,
                     newKernels := fun _ i => if i = 0 then 1 else 0,
                     depth := 1, kernelSize := 64, kernelMask := 63 }

/-- Counterexample to claim C6 as stated: within one sample, channels are
NOT blended with the same mix value.  In c6state both channels have the
same kernels, the same delay state and the same unit-impulse input, so one
shared per-sample mix would give equal first outputs; the code gives 0 for
the driver (which blends frame 0 with mix 0) and 1/600 for channel 1
(which blends every frame of the block with the driver's end-of-block mix
4/2400). -/
theorem c6_cex :
    ((stepBlock (fun q => q) (fun _ => [1, 0, 0, 0]) c6state).2 0).getD 0 0 = 0
    ∧ ((stepBlock (fun q => q) (fun _ => [1, 0, 0, 0]) c6state).2 1).getD 0 0 = 1/600
    ∧ (0 : ℚ) ≠ 1/600 := by
  have hmixAfter : (stepChannel (fun q => q) c6state true c6state.crossfadeMix 0
      [1, 0, 0, 0]).1.localMix = 1/600 := by
    unfold stepChannel
    rw [stepFrames_driver_mix _ _ _ _ _ _ rfl rfl rfl]
    show c6state.crossfadeMix + ((4:ℕ) : ℚ) * kCrossfadeRate = 1/600
    norm_num [c6state, initState, kCrossfadeRate]
  refine ⟨?_, ?_, by norm_num⟩
  · have hblk : (stepBlock (fun q => q) (fun _ => [1, 0, 0, 0]) c6state).2 0
        = (stepFrames (fun q => q) (blockCfg c6state true) (c6state.kernels 0)
            (c6state.newKernels 0) [1, 0, 0, 0] ⟨fun _ => 0, 0, 0⟩).2 := rfl
    rw [hblk, stepFrames_cons]
    simp only [List.getD_cons_zero]
    rw [stepSample_out_impulse _ _ _ _ 0 rfl (by decide)]
    rw [show (blockCfg c6state true).crossfading = true from rfl]
    simp only [if_true]
    rw [postMix_wet_only _ _ _ _ rfl rfl rfl]
    show (1 : ℚ) * 0 + (1 * 1 - 1 * 0) * 0 = 0
    norm_num
  · have hblk : (stepBlock (fun q => q) (fun _ => [1, 0, 0, 0]) c6state).2 1
        = (stepFrames (fun q => q) (blockCfg c6state false) (c6state.kernels 1)
            (c6state.newKernels 1) [1, 0, 0, 0]
            ⟨fun _ => 0, 0, (stepChannel (fun q => q) c6state true c6state.crossfadeMix 0
                [1, 0, 0, 0]).1.localMix⟩).2 := rfl
    rw [hblk, hmixAfter, stepFrames_cons]
    simp only [List.getD_cons_zero]
    rw [stepSample_out_impulse _ _ _ _ (1/600) rfl (by decide)]
    rw [show (blockCfg c6state false).crossfading = true from rfl]
    simp only [if_true]
    rw [postMix_wet_only _ _ _ _ rfl rfl rfl]
    show (1 : ℚ) * 0 + (1 * 1 - 1 * 0) * (1/600) = 1/600
    norm_num

/-- Claim C6, amended: the crossfade state is a single global pair of
mixing flag and mix value, the stored mix always stays in the unit
interval, and per channel the wet output is the blend
wetOld * (1 - mix) + wetNew * mix with that channel's local mix value —
but the channels do not share one per-sample value: the driver (channel 0)
blends sample i of a block with storedMix + i * rate, while every other
channel blends all its samples of the block with the driver's
end-of-block value storedMix + numFrames * rate, held constant. -/
theorem c6_crossfade_mix (tanh : ℚ → ℚ) (cfg : FrameCfg)
    (kernel newKernel : ℕ → ℚ) (ds ds1 ds2 : List ℚ) (c : ChanRun) (m : ℚ)
    (delay : ℕ → ℚ) (wp ch : ℕ) (dry : ℚ) (s : State) (inputs : ℕ → List ℚ) :
    (cfg.doConvolve = true → cfg.crossfading = true →
      wetValue cfg kernel newKernel m delay wp dry
        = convolveAt delay wp cfg.kernelSize kernel * (1 - m)
          + convolveAt delay wp cfg.kernelSize newKernel * m)
    ∧ stepFrames tanh cfg kernel newKernel (ds1 ++ ds2) c
        = ((stepFrames tanh cfg kernel newKernel ds2
              (stepFrames tanh cfg kernel newKernel ds1 c).1).1,
           (stepFrames tanh cfg kernel newKernel ds1 c).2
             ++ (stepFrames tanh cfg kernel newKernel ds2
                   (stepFrames tanh cfg kernel newKernel ds1 c).1).2)
    ∧ (cfg.doConvolve = true → cfg.crossfading = true → cfg.isDriver = true →
        (stepFrames tanh cfg kernel newKernel ds c).1.localMix
          = c.localMix + ds.length * kCrossfadeRate)
    ∧ (cfg.isDriver = false →
        (stepFrames tanh cfg kernel newKernel ds c).1.localMix = c.localMix)
    ∧ (0 ≤ s.crossfadeMix → s.crossfadeMix ≤ 1 →
        0 ≤ (stepBlock tanh inputs s).1.crossfadeMix
        ∧ (stepBlock tanh inputs s).1.crossfadeMix ≤ 1)
    ∧ (0 < s.numChannels →
        (stepBlock tanh inputs s).2 0
          = (stepChannel tanh s true s.crossfadeMix 0 (inputs 0)).2)
    ∧ (s.crossfading = true → s.wavetableLoaded = true → ch ≠ 0 →
       ch < s.numChannels →
        (stepBlock tanh inputs s).2 ch
          = (stepChannel tanh s false
              (s.crossfadeMix + ((inputs 0).length : ℚ) * kCrossfadeRate)
              ch (inputs ch)).2) := by
  refine ⟨fun h1 h2 => ?_,
    stepFrames_append tanh cfg kernel newKernel ds1 ds2 c,
    stepFrames_driver_mix tanh cfg kernel newKernel ds c,
    stepFrames_mix_const tanh cfg kernel newKernel ds c,
    fun h0 h1 => ?_, fun hnc => ?_, fun hxf hload hch0 hchlt => ?_⟩
  · simp only [wetValue, h1, h2, eq_self_iff_true, if_true]
    ring
  · have hbounds := stepFrames_mix_bounds tanh (blockCfg s true) (s.kernels 0)
      (s.newKernels 0) (inputs 0)
      ⟨(s.channels 0).delay, (s.channels 0).writePos, s.crossfadeMix⟩
    by_cases hxf : s.crossfading = true
    · simp only [stepBlock, hxf, eq_self_iff_true, if_true]
      have hge0 : (0:ℚ) ≤ mixAfterBlock tanh inputs s := by
        simp only [mixAfterBlock, hxf, if_true]
        exact le_trans h0 hbounds.1
      split
      · exact ⟨le_refl 0, by norm_num⟩
      · rename_i hlt
        exact ⟨hge0, le_of_not_le hlt⟩
    · simp only [stepBlock, if_neg hxf]
      exact ⟨h0, h1⟩
  · have houts : (stepBlock tanh inputs s).2 0
        = if 0 < s.numChannels then (blockRun tanh inputs s 0).2 else [] := rfl
    rw [houts, if_pos hnc]
    simp only [blockRun, eq_self_iff_true, if_true, driverRun]
  · have houts : (stepBlock tanh inputs s).2 ch
        = if ch < s.numChannels then (blockRun tanh inputs s ch).2 else [] := rfl
    rw [houts, if_pos hchlt]
    simp only [blockRun, if_neg hch0]
    have hma : mixAfterBlock tanh inputs s
        = s.crossfadeMix + ((inputs 0).length : ℚ) * kCrossfadeRate := by
      simp only [mixAfterBlock, hxf, if_true, driverRun]
      unfold stepChannel
      exact stepFrames_driver_mix tanh (blockCfg s true) _ _ (inputs 0) _
        (by simpa [blockCfg] using hload) (by simpa [blockCfg] using hxf) rfl
    rw [hma]

/-- Witness for c6_crossfade_mix: off the driver channel the local mix is
constant across a concrete two-sample block. -/
theorem c6_wit :
    ((⟨true, true, false, 64, 63, 1, 1, 0⟩ : FrameCfg).isDriver = false)
    ∧ (stepFrames (fun q => q) ⟨true, true, false, 64, 63, 1, 1, 0⟩
        (fun _ => 0) (fun _ => 0) [1, 0] ⟨fun _ => 0, 0, 1/4⟩).1.localMix = 1/4 := by
  have h := (c6_crossfade_mix (fun q => q) ⟨true, true, false, 64, 63, 1, 1, 0⟩
      (fun _ => 0) (fun _ => 0) [1, 0] [] [] ⟨fun _ => 0, 0, 1/4⟩ 0
      (fun _ => 0) 0 0 0 (initState 1) (fun _ => [])).2.2.2.1 rfl
  exact ⟨rfl, h⟩

/-- The channel states after a block: processed channels get the run's
delay line and cursor, the rest are untouched, in every crossfade branch. -/
lemma stepBlock_channels_eq (tanh : ℚ → ℚ) (inputs : ℕ → List ℚ) (s : State) :
    (stepBlock tanh inputs s).1.channels
      = fun ch => if ch < s.numChannels then
          (⟨(blockRun tanh inputs s ch).1.delay,
            (blockRun tanh inputs s ch).1.wp⟩ : ChanSp)
        else s.channels ch := by
  simp only [stepBlock]
  split
  · split <;> rfl
  · rfl

/-- Every channel run of a block keeps the cursor below kMaxKernelSize. -/
lemma blockRun_wp_lt (tanh : ℚ → ℚ) (inputs : ℕ → List ℚ) (s : State)
    (hsks : s.kernelSize ∈ kKernelSizes) (hsmask : s.kernelMask = s.kernelSize - 1)
    (hall : ∀ ch, (s.channels ch).writePos < kMaxKernelSize) (ch : ℕ) :
    (blockRun tanh inputs s ch).1.wp < kMaxKernelSize := by
  unfold blockRun driverRun stepChannel
  split
  · exact stepFrames_wp_lt tanh (blockCfg s true) _ _ (inputs 0) _ hsks hsmask (hall 0)
  · exact stepFrames_wp_lt tanh (blockCfg s false) _ _ (inputs ch) _ hsks hsmask (hall ch)

/-- Claim C10: the write cursor is 0 after construction, stays below
kMaxKernelSize after every sample, block and parameter change (parameter
changes never touch channel state, so a kernel-size change does not reset
the cursor), and under that bound every delay-line index step touches —
the dual writes at wp and wp + kernelSize and the kernelSize convolution
reads descending from wp + kernelSize — lies below 2 * kMaxKernelSize;
moreover the dual write touches only those two indices and the
convolution reads only that window. -/
theorem c10_delay_safety (tanh pow10 : ℚ → ℚ) (readOk : Bool) (q : Param)
    (v : ℤ) (cfg : FrameCfg) (kernel newKernel : ℕ → ℚ) (dry : ℚ) (c : ChanRun)
    (ds : List ℚ) (s : State) (inputs : ℕ → List ℚ) (nc ch wp ks : ℕ)
    (hks : ks ∈ kKernelSizes) (hcfgks : cfg.kernelSize ∈ kKernelSizes)
    (hmask : cfg.kernelMask = cfg.kernelSize - 1) (hwp : wp < kMaxKernelSize) :
    ((initState nc).channels ch).writePos = 0
    ∧ (stepSample tanh cfg kernel newKernel dry c).1.wp < kMaxKernelSize
    ∧ (c.wp < kMaxKernelSize →
        (stepFrames tanh cfg kernel newKernel ds c).1.wp < kMaxKernelSize)
    ∧ (parameterChanged pow10 readOk q v s).channels = s.channels
    ∧ (s.kernelSize ∈ kKernelSizes → s.kernelMask = s.kernelSize - 1 →
        (∀ ch2, (s.channels ch2).writePos < kMaxKernelSize) →
        ∀ ch2, ((stepBlock tanh inputs s).1.channels ch2).writePos < kMaxKernelSize)
    ∧ (∀ j ∈ sampleWriteIndices wp ks, j < 2 * kMaxKernelSize)
    ∧ (∀ j ∈ sampleReadIndices wp ks, j < 2 * kMaxKernelSize)
    ∧ (∀ (dl : ℕ → ℚ) (d : ℚ) (j : ℕ), j ∉ sampleWriteIndices wp ks →
        writeDelay dl wp ks d j = dl j)
    ∧ (∀ (d1 d2 hfn : ℕ → ℚ), (∀ j ∈ sampleReadIndices wp ks, d1 j = d2 j) →
        convolveAt d1 wp ks hfn = convolveAt d2 wp ks hfn) := by
  obtain ⟨hpos, hle⟩ := kernelSize_bounds hks
  refine ⟨rfl, stepSample_wp_lt tanh cfg kernel newKernel dry c hcfgks hmask,
    fun hw => stepFrames_wp_lt tanh cfg kernel newKernel ds c hcfgks hmask hw,
    ?_, fun hsks hsmask hall ch2 => ?_, fun j hj => ?_, fun j hj => ?_,
    fun dl d j hj => ?_, fun d1 d2 hfn hcong => ?_⟩
  · cases q with
    | wavetable =>
        simp only [parameterChanged]
        split
        · rfl
        · rfl
    | index => exact (updateKernel_untouched _).2.2.1
    | spread => exact (updateKernel_untouched _).2.2.1
    | depth => rfl
    | gain => rfl
    | saturation => rfl
    | resolution => exact (updateKernel_untouched _).2.2.1
  · rw [stepBlock_channels_eq]
    show (if ch2 < s.numChannels then
        (⟨(blockRun tanh inputs s ch2).1.delay,
          (blockRun tanh inputs s ch2).1.wp⟩ : ChanSp)
      else s.channels ch2).writePos < kMaxKernelSize
    split
    · exact blockRun_wp_lt tanh inputs s hsks hsmask hall ch2
    · exact hall ch2
  · simp only [sampleWriteIndices, Finset.mem_insert, Finset.mem_singleton] at hj
    rcases hj with rfl | rfl <;> omega
  · simp only [sampleReadIndices, Finset.mem_image, Finset.mem_range] at hj
    obtain ⟨k, hk, rfl⟩ := hj
    omega
  · simp only [sampleWriteIndices, Finset.mem_insert, Finset.mem_singleton,
      not_or] at hj
    simp [writeDelay, hj.1, hj.2]
  · refine Finset.sum_congr rfl fun k hk => ?_
    rw [hcong (wp + ks - k) (Finset.mem_image.mpr ⟨k, hk, rfl⟩)]

/-- Witness for c10_delay_safety: a concrete cursor and kernel size stay in
bounds and every touched index is inside the doubled delay line. -/
theorem c10_wit :
    64 ∈ kKernelSizes ∧ (10:ℕ) < kMaxKernelSize
    ∧ (stepSample (fun q => q) ⟨true, false, true, 64, 63, 1/2, 1, 0⟩
        (fun _ => 0) (fun _ => 0) 1 ⟨fun _ => 0, 10, 0⟩).1.wp < kMaxKernelSize
    ∧ (∀ j ∈ sampleWriteIndices 10 64, j < 2 * kMaxKernelSize) := by
  have h := c10_delay_safety (fun q => q) (fun q => q) false .index 0
      ⟨true, false, true, 64, 63, 1/2, 1, 0⟩ (fun _ => 0) (fun _ => 0) 1
      ⟨fun _ => 0, 10, 0⟩ [] (initState 1) (fun _ => []) 1 0 10 64
      (by decide) (by decide) rfl (by decide)
  exact ⟨by decide, by decide, h.2.1, h.2.2.2.2.2.1⟩

end Rainbow
